import Mathlib

/-!
Verification of the cache-management core of `mlx_downloader.py`.

The embedding models the filesystem state that the program inspects and
mutates: a cache root is a list of directory entries (name, contents),
where the contents record whether the entry is a directory, whether its
`blobs/` and `snapshots/` subdirectories exist, and the file names they
hold.  String manipulation (`str.replace`, `str.split("--")`,
`str.startswith`, suffix tests) is modelled by explicit recursive
functions on `List Char` with exactly Python's semantics (leftmost,
non-overlapping split; split never returns an empty list).

External collaborators (`snapshot_download`, `mlx_lm.load`) and the
possibility of `unlink`/`rmtree` failures are modelled by an environment:
a result for each successive `load` call, a fetch function returning the
post-fetch cache state or `none` for a transfer error, and a list of
file names whose deletion fails.  `download_model` additionally returns
the trace of external/mutating calls it performed, in order.
-/

/-- Python `s.replace('/', '--')` on a character list: every `'/'` becomes
two dashes. -/
def replaceSlashL : List Char → List Char
  | [] => []
  | c :: cs => if c = '/' then '-' :: '-' :: replaceSlashL cs else c :: replaceSlashL cs

/-- Character-list version of Python `str.startswith`. -/
def isPre : List Char → List Char → Bool
  | [], _ => true
  | _ :: _, [] => false
  | a :: as, b :: bs => if a = b then isPre as bs else false

/-- Prepend a character to the first part of a split result. -/
def consHead (c : Char) : List (List Char) → List (List Char)
  | [] => [[c]]
  | p :: ps => (c :: p) :: ps

/-- Python `s.split("--")`: leftmost, non-overlapping occurrences of the
two-dash separator; always returns at least one part. -/
def splitDD : List Char → List (List Char)
  | [] => [[]]
  | [c] => [[c]]
  | c1 :: c2 :: cs =>
    if c1 = '-' ∧ c2 = '-' then [] :: splitDD cs
    else consHead c1 (splitDD (c2 :: cs))

/-- Python `"-".join(parts)`. -/
def joinDash : List (List Char) → List Char
  | [] => []
  | [p] => p
  | p :: ps => p ++ '-' :: joinDash ps

/-- Source line 88: `f"models--{model_name.replace('/', '--')}"`. -/
def encodeDir (name : String) : String :=
  ⟨"models--".data ++ replaceSlashL name.data⟩

/-- Source line 163: `dir_name.startswith("models--")` (also the
`models--*` glob filter of line 158). -/
def startsWithModels (d : String) : Bool :=
  isPre "models--".data d.data

/-- Source lines 163-171: strip the `models--` prefix, split the rest on
`--`; with fewer than two parts the directory is skipped (`none`);
otherwise the identifier is `parts[0] ++ "/" ++ "-".join(parts[1:])`. -/
def decodeDir (d : String) : Option String :=
  if startsWithModels d = true then
    match splitDD (d.data.drop 8) with
    | p0 :: p1 :: rest => some ⟨p0 ++ '/' :: joinDash (p1 :: rest)⟩
    | _ => none
  else none

/-- Source line 99: a blob matches the glob `*.incomplete` exactly when its
name ends with the suffix `.incomplete` (pathlib's `*` also matches a
leading dot, so the glob is precisely a suffix test). -/
def isIncompleteName (f : String) : Bool :=
  isPre ".incomplete".data.reverse f.data.reverse

/-- On-disk footprint of one entry directly under the cache root. -/
structure ModelDir where
  isDir : Bool
  blobsExists : Bool
  blobFiles : List String
  snapshotsExists : Bool
  snapshotFiles : List String
deriving DecidableEq

/-- The cache root: directory entries by name. -/
abbrev CacheFS := List (String × ModelDir)

/-- Path existence check: the entry under the cache root with the given
name, if any. -/
def findDir : CacheFS → String → Option ModelDir
  | [], _ => none
  | e :: rest, d => if e.1 = d then some e.2 else findDir rest d

/-- Boolean list membership for file names. -/
def memS : List String → String → Bool
  | [], _ => false
  | x :: xs, a => if x = a then true else memS xs a

/-- Source lines 85-110, `get_model_status`: classify the model's cache
directory and return `(status, model_path?, files)`.  The file list is
`[]` for `not_downloaded`/`no_blobs`, the `*.incomplete` matches for
`incomplete`, and all blob files for `complete`/`unknown`. -/
def get_model_status (fs : CacheFS) (name : String) :
    String × Option String × List String :=
  match findDir fs (encodeDir name) with
  | none => ("not_downloaded", none, [])
  | some md =>
    if md.blobsExists = false then ("no_blobs", some (encodeDir name), [])
    else if md.blobFiles.filter isIncompleteName ≠ [] then
      ("incomplete", some (encodeDir name), md.blobFiles.filter isIncompleteName)
    else if md.snapshotsExists = true ∧ md.snapshotFiles ≠ [] then
      ("complete", some (encodeDir name), md.blobFiles)
    else ("unknown", some (encodeDir name), md.blobFiles)

/-- Remove one file from a directory's `blobs/`. -/
def eraseFile (md : ModelDir) (f : String) : ModelDir :=
  { md with blobFiles := md.blobFiles.filter (fun g => !(g == f)) }

/-- Effect of `file_path.unlink()` on the cache state. -/
def unlinkFile (fs : CacheFS) (d f : String) : CacheFS :=
  fs.map (fun e => if e.1 = d then (e.1, eraseFile e.2 f) else e)

/-- Source lines 119-124: the deletion loop.  A file in `locked` raises on
`unlink`; the exception is caught and the loop continues.  Returns the
final state and the number of successful deletions. -/
def cleanLoop (locked : List String) (d : String) : CacheFS → List String → CacheFS × Nat
  | fs, [] => (fs, 0)
  | fs, f :: rest =>
    if memS locked f = true then cleanLoop locked d fs rest
    else
      let r := cleanLoop locked d (unlinkFile fs d f) rest
      (r.1, r.2 + 1)

/-- Source lines 112-131, `clean_incomplete_model`: re-inspect; on
`incomplete`, try to delete every listed file and return `True`; on any
other status delete nothing and return `False`.  The returned triple also
carries the resulting cache state and the number of files actually
removed (observable from the state; the Python function itself returns
only the boolean). -/
def clean_incomplete_model (fs : CacheFS) (locked : List String) (name : String) :
    Bool × CacheFS × Nat :=
  let st := get_model_status fs name
  let incomplete_files := if st.1 = "incomplete" then st.2.2 else []
  if st.1 = "incomplete" then
    let r := cleanLoop locked (encodeDir name) fs incomplete_files
    (true, r.1, r.2)
  else (false, fs, 0)

/-- Effect of `shutil.rmtree(model_path)`: every entry with that name is
gone. -/
def removeDir (fs : CacheFS) (d : String) : CacheFS :=
  fs.filter (fun e => !(e.1 == d))

/-- Source lines 133-147, `remove_model`: re-inspect; `not_downloaded`
returns `False` untouched; otherwise `rmtree` the model directory and
return `True`, or `False` when the deletion raises (`rmOk = false`). -/
def remove_model (fs : CacheFS) (rmOk : Bool) (name : String) : Bool × CacheFS :=
  let st := get_model_status fs name
  if st.1 = "not_downloaded" then (false, fs)
  else if rmOk = true then (true, removeDir fs (encodeDir name))
  else (false, fs)

/-- Source lines 158-172: the discovery loop over `cache_path.glob("models--*")`
entries, keeping directories whose name decodes. -/
def discoverLoop : CacheFS → List String
  | [] => []
  | e :: rest =>
    if startsWithModels e.1 = true ∧ e.2.isDir = true then
      match decodeDir e.1 with
      | some m => m :: discoverLoop rest
      | none => discoverLoop rest
    else discoverLoop rest

/-- Source lines 149-174, `discover_local_models`: decoded identifiers of
all `models--*` directories, sorted (Python `sorted`, i.e. lexicographic
string order). -/
def discover_local_models (fs : CacheFS) : List String :=
  List.insertionSort (· ≤ ·) (discoverLoop fs)

/-- Lines printed by `discover_local_models` about entries it skips: the
source's loop body has no `print` (or any other reporting) statement on
the skip paths, so nothing is ever emitted. -/
def discover_report (_fs : CacheFS) : List String := []

/-- External calls and mutations performed by `download_model`, in order. -/
inductive Ev where
  | clean : Ev
  | fetch : Ev
  | load : Ev
deriving DecidableEq

/-- External collaborators: the result of the n-th `mlx_lm.load` call, the
effect of `snapshot_download` (`none` = transfer error), and the file
names whose deletion fails. -/
structure Env where
  load : Nat → Bool
  fetch : CacheFS → Option CacheFS
  locked : List String

/-- Source lines 38-78: the part of `download_model` after the
complete-and-not-forced fast path: clean if the inspected status is
`incomplete`, fetch (failure returns `False`), optionally verify with the
loader (failure after the fresh download returns `False`). -/
def downloadRest (fs : CacheFS) (env : Env) (name : String) (verify : Bool)
    (evs : List Ev) (li : Nat) : Bool × CacheFS × List Ev :=
  let st := get_model_status fs name
  let cleaned :=
    if st.1 = "incomplete" then
      ((clean_incomplete_model fs env.locked name).2.1, evs ++ [Ev.clean])
    else (fs, evs)
  match env.fetch cleaned.1 with
  | none => (false, cleaned.1, cleaned.2 ++ [Ev.fetch])
  | some fs2 =>
    if verify = true then (env.load li, fs2, cleaned.2 ++ [Ev.fetch, Ev.load])
    else (true, fs2, cleaned.2 ++ [Ev.fetch])

/-- Source lines 13-78, `download_model`: on `complete` and not forced,
succeed immediately (verifying first when `verify`, a verification
failure falling through to a re-download); otherwise clean-if-incomplete,
fetch, and optionally verify. -/
def download_model (fs : CacheFS) (env : Env) (name : String)
    (verify force : Bool) : Bool × CacheFS × List Ev :=
  let st := get_model_status fs name
  if st.1 = "complete" ∧ force = false then
    if verify = true then
      if env.load 0 = true then (true, fs, [Ev.load])
      else downloadRest fs env name verify [Ev.load] 1
    else (true, fs, [])
  else downloadRest fs env name verify [] 0

/-! Concrete cache states and environments used by witnesses and
counterexamples. -/

/-- A directory with a marker-suffixed blob and a non-empty snapshot. -/
def mdBoth : ModelDir := ⟨true, true, ["a.bin", "b.incomplete"], true, ["snap"]⟩

/-- A clean, complete directory. -/
def mdComplete : ModelDir := ⟨true, true, ["a.bin"], true, ["snap"]⟩

/-- A directory with two marker-suffixed blobs and no snapshot. -/
def mdTwoInc : ModelDir := ⟨true, true, ["a.incomplete", "b.incomplete"], false, []⟩

/-- Cache with one model having both a marker file and a snapshot. -/
def fsBoth : CacheFS := [("models--acme--Foo-7B", mdBoth)]

/-- Cache with one complete model. -/
def fsComplete : CacheFS := [("models--acme--Foo-7B", mdComplete)]

/-- Cache with one model with two marker-suffixed blobs. -/
def fsTwoInc : CacheFS := [("models--acme--Foo-7B", mdTwoInc)]

/-- Cache containing a well-formed model directory and a directory whose
name does not decode. -/
def fsDiscX : CacheFS := [("models--acme--Foo-7B", mdComplete), ("models--bad", mdComplete)]

/-- `fsDiscX` without the malformed entry. -/
def fsDiscY : CacheFS := [("models--acme--Foo-7B", mdComplete)]

/-- Every external call succeeds and the fetch leaves the state as is. -/
def envYes : Env := ⟨fun _ => true, fun s => some s, []⟩

/-- Every fetch raises a transfer error. -/
def envNoFetch : Env := ⟨fun _ => true, fun _ => none, []⟩

/-! Basic characterizations of the character-list utilities. -/

theorem isPre_iff (a : List Char) : ∀ b, isPre a b = true ↔ ∃ t, b = a ++ t := by
  induction a with
  | nil => intro b; simp [isPre]
  | cons x xs ih =>
    intro b
    cases b with
    | nil => simp [isPre]
    | cons y ys =>
      by_cases hxy : x = y
      · subst hxy
        simp [isPre, ih ys]
      · constructor
        · intro h; simp [isPre, hxy] at h
        · rintro ⟨t, ht⟩
          injection ht with h1 h2
          exact absurd h1.symm hxy

theorem memS_iff (l : List String) (a : String) : memS l a = true ↔ a ∈ l := by
  induction l with
  | nil => simp [memS]
  | cons x xs ih =>
    by_cases hxa : x = a
    · subst hxa; simp [memS]
    · have hax : ¬a = x := fun h => hxa h.symm
      simp [memS, hxa, hax, ih]

theorem isIncompleteName_iff (f : String) :
    isIncompleteName f = true ↔ ∃ t, f.data = t ++ ".incomplete".data := by
  unfold isIncompleteName
  rw [isPre_iff]
  constructor
  · rintro ⟨t, ht⟩
    refine ⟨t.reverse, ?_⟩
    have := congrArg List.reverse ht
    simpa using this
  · rintro ⟨t, ht⟩
    exact ⟨t.reverse, by simp [ht]⟩

/-- Claim C1: `get_model_status` classifies by strict first-match order:
nonexistent root → `not_downloaded`; no `blobs/` → `no_blobs`; any blob
name with the marker suffix → `incomplete` (even when a non-empty
`snapshots/` exists — nothing about snapshots is assumed in that case);
else non-empty `snapshots/` → `complete`; else `unknown`. -/
theorem C1_status_classification (fs : CacheFS) (name : String) :
    (findDir fs (encodeDir name) = none →
      (get_model_status fs name).1 = "not_downloaded") ∧
    (∀ md, findDir fs (encodeDir name) = some md → md.blobsExists = false →
      (get_model_status fs name).1 = "no_blobs") ∧
    (∀ md, findDir fs (encodeDir name) = some md → md.blobsExists = true →
      (∃ f ∈ md.blobFiles, isIncompleteName f = true) →
      (get_model_status fs name).1 = "incomplete") ∧
    (∀ md, findDir fs (encodeDir name) = some md → md.blobsExists = true →
      (∀ f ∈ md.blobFiles, isIncompleteName f = false) →
      md.snapshotsExists = true → md.snapshotFiles ≠ [] →
      (get_model_status fs name).1 = "complete") ∧
    (∀ md, findDir fs (encodeDir name) = some md → md.blobsExists = true →
      (∀ f ∈ md.blobFiles, isIncompleteName f = false) →
      ¬(md.snapshotsExists = true ∧ md.snapshotFiles ≠ []) →
      (get_model_status fs name).1 = "unknown") := by
  refine ⟨?_, ?_, ?_, ?_, ?_⟩
  · intro h; simp [get_model_status, h]
  · intro md h hb; simp [get_model_status, h, hb]
  · intro md h hb hex
    have hf : md.blobFiles.filter isIncompleteName ≠ [] := by
      rcases hex with ⟨f, hfmem, hfm⟩
      intro hnil
      have hmemf : f ∈ md.blobFiles.filter isIncompleteName :=
        List.mem_filter.mpr ⟨hfmem, hfm⟩
      rw [hnil] at hmemf
      exact absurd hmemf (List.not_mem_nil f)
    simp [get_model_status, h, hb, hf]
  · intro md h hb hall hs hn
    have hf : md.blobFiles.filter isIncompleteName = [] :=
      List.filter_eq_nil_iff.mpr (fun f hfm => by simp [hall f hfm])
    simp [get_model_status, h, hb, hf, hs, hn]
  · intro md h hb hall hns
    have hf : md.blobFiles.filter isIncompleteName = [] :=
      List.filter_eq_nil_iff.mpr (fun f hfm => by simp [hall f hfm])
    simp [get_model_status, h, hb, hf, hns]

/-- Claim C1 witness: a cache holding one marker-suffixed blob next to a
non-empty snapshot is classified `incomplete`. -/
theorem C1_status_classification_witness :
    (get_model_status fsBoth "acme/Foo-7B").1 = "incomplete" :=
  (C1_status_classification fsBoth "acme/Foo-7B").2.2.1 mdBoth (by decide)
    (by decide) ⟨"b.incomplete", by decide, by decide⟩

/-- Claim C9: the inspection counts a blob as incomplete precisely when its
name ends with the suffix `.incomplete`: the status is `incomplete` iff
the model directory exists, `blobs/` exists, and some blob name ends with
that suffix (second conjunct: the marker test is exactly the suffix
test). -/
theorem C9_incomplete_marker (fs : CacheFS) (name : String) :
    ((get_model_status fs name).1 = "incomplete" ↔
      ∃ md, findDir fs (encodeDir name) = some md ∧ md.blobsExists = true ∧
        ∃ f ∈ md.blobFiles, isIncompleteName f = true) ∧
    (∀ f : String, isIncompleteName f = true ↔ ∃ t, f.data = t ++ ".incomplete".data) := by
  refine ⟨⟨?_, ?_⟩, isIncompleteName_iff⟩
  · intro h
    rcases hfd : findDir fs (encodeDir name) with _ | md
    · simp only [get_model_status, hfd] at h
      exact absurd (show ("not_downloaded" : String) = "incomplete" from h) (by decide)
    · simp only [get_model_status, hfd] at h
      by_cases hb : md.blobsExists = false
      · rw [if_pos hb] at h
        exact absurd (show ("no_blobs" : String) = "incomplete" from h) (by decide)
      · rw [if_neg hb] at h
        simp only [Bool.not_eq_false] at hb
        by_cases hf : md.blobFiles.filter isIncompleteName = []
        · rw [if_neg (not_ne_iff.mpr hf)] at h
          by_cases hs : md.snapshotsExists = true ∧ md.snapshotFiles ≠ []
          · rw [if_pos hs] at h
            exact absurd (show ("complete" : String) = "incomplete" from h) (by decide)
          · rw [if_neg hs] at h
            exact absurd (show ("unknown" : String) = "incomplete" from h) (by decide)
        · rcases List.exists_mem_of_ne_nil _ hf with ⟨f, hfm⟩
          rcases List.mem_filter.mp hfm with ⟨h1, h2⟩
          exact ⟨md, rfl, hb, f, h1, h2⟩
  · rintro ⟨md, hfd, hb, f, h1, h2⟩
    have hf : md.blobFiles.filter isIncompleteName ≠ [] := by
      intro hnil
      have hmem : f ∈ md.blobFiles.filter isIncompleteName :=
        List.mem_filter.mpr ⟨h1, h2⟩
      rw [hnil] at hmem
      exact absurd hmem (List.not_mem_nil f)
    simp [get_model_status, hfd, hb, hf]

/-- Claim C9 witness: a cache whose blobs are `a.incomplete` and
`b.incomplete` is classified `incomplete`. -/
theorem C9_incomplete_marker_witness :
    (get_model_status fsTwoInc "acme/Foo-7B").1 = "incomplete" :=
  (C9_incomplete_marker fsTwoInc "acme/Foo-7B").1.mpr
    ⟨mdTwoInc, by decide, by decide, "a.incomplete", by decide, by decide⟩

/-- Claim C10: the file list returned by `get_model_status` is `[]` on
`not_downloaded`/`no_blobs`; exactly the marker-suffixed files, and
non-empty, on `incomplete`; and all blob files (not only incomplete ones)
on `complete`/`unknown`. -/
theorem C10_files_component (fs : CacheFS) (name : String) :
    (((get_model_status fs name).1 = "not_downloaded" ∨
      (get_model_status fs name).1 = "no_blobs") →
      (get_model_status fs name).2.2 = []) ∧
    ((get_model_status fs name).1 = "incomplete" →
      ∃ md, findDir fs (encodeDir name) = some md ∧
        (get_model_status fs name).2.2 = md.blobFiles.filter isIncompleteName ∧
        (get_model_status fs name).2.2 ≠ []) ∧
    (((get_model_status fs name).1 = "complete" ∨
      (get_model_status fs name).1 = "unknown") →
      ∃ md, findDir fs (encodeDir name) = some md ∧
        (get_model_status fs name).2.2 = md.blobFiles) := by
  rcases hfd : findDir fs (encodeDir name) with _ | md
  · refine ⟨fun _ => ?_, fun h => ?_, fun h => ?_⟩
    · simp [get_model_status, hfd]
    · rw [show (get_model_status fs name).1 = "not_downloaded" by
        simp [get_model_status, hfd]] at h
      exact absurd h (by decide)
    · rw [show (get_model_status fs name).1 = "not_downloaded" by
        simp [get_model_status, hfd]] at h
      rcases h with h | h <;> exact absurd h (by decide)
  · by_cases hb : md.blobsExists = false
    · refine ⟨fun _ => ?_, fun h => ?_, fun h => ?_⟩
      · simp [get_model_status, hfd, hb]
      · rw [show (get_model_status fs name).1 = "no_blobs" by
          simp [get_model_status, hfd, hb]] at h
        exact absurd h (by decide)
      · rw [show (get_model_status fs name).1 = "no_blobs" by
          simp [get_model_status, hfd, hb]] at h
        rcases h with h | h <;> exact absurd h (by decide)
    · simp only [Bool.not_eq_false] at hb
      by_cases hf : md.blobFiles.filter isIncompleteName = []
      · have hst : (get_model_status fs name).1 = "complete" ∨
            (get_model_status fs name).1 = "unknown" := by
          by_cases hs : md.snapshotsExists = true ∧ md.snapshotFiles ≠ []
          · left; simp [get_model_status, hfd, hb, hf, hs]
          · right; simp [get_model_status, hfd, hb, hf, hs]
        have hfiles : (get_model_status fs name).2.2 = md.blobFiles := by
          by_cases hs : md.snapshotsExists = true ∧ md.snapshotFiles ≠ []
          · simp [get_model_status, hfd, hb, hf, hs]
          · simp [get_model_status, hfd, hb, hf, hs]
        refine ⟨fun h => ?_, fun h => ?_, fun _ => ⟨md, rfl, hfiles⟩⟩
        · rcases hst with hst | hst <;> rw [hst] at h <;>
            rcases h with h | h <;> exact absurd h (by decide)
        · rcases hst with hst | hst <;> rw [hst] at h <;> exact absurd h (by decide)
      · have hst : (get_model_status fs name).1 = "incomplete" := by
          simp [get_model_status, hfd, hb, hf]
        have hfiles : (get_model_status fs name).2.2 =
            md.blobFiles.filter isIncompleteName := by
          simp [get_model_status, hfd, hb, hf]
        refine ⟨fun h => ?_, fun _ => ⟨md, rfl, hfiles, by rw [hfiles]; exact hf⟩,
          fun h => ?_⟩
        · rw [hst] at h; rcases h with h | h <;> exact absurd h (by decide)
        · rw [hst] at h; rcases h with h | h <;> exact absurd h (by decide)

/-- Claim C10 witness: on the incomplete-and-snapshotted cache the returned
file list is the marker files only. -/
theorem C10_files_component_witness :
    (get_model_status fsBoth "acme/Foo-7B").2.2 = ["b.incomplete"] := by
  have h := (C10_files_component fsBoth "acme/Foo-7B").2.1 (by decide)
  rcases h with ⟨md, hmd, hfl, _⟩
  rw [hfl]
  have : md = mdBoth := by
    have : findDir fsBoth (encodeDir "acme/Foo-7B") = some mdBoth := by decide
    rw [this] at hmd
    exact (Option.some.injEq _ _ ▸ hmd).symm
  rw [this]
  decide


/-! Effect of the deletion loop on the cache state. -/

theorem unlinkFile_cons (e : String × ModelDir) (rest : CacheFS) (d f : String) :
    unlinkFile (e :: rest) d f =
      (if e.1 = d then (e.1, eraseFile e.2 f) else e) :: unlinkFile rest d f := by
  simp [unlinkFile]

theorem findDir_unlinkFile_same (d f : String) :
    ∀ fs : CacheFS, findDir (unlinkFile fs d f) d =
      (findDir fs d).map (fun md => eraseFile md f) := by
  intro fs
  induction fs with
  | nil => simp [findDir, unlinkFile]
  | cons e rest ih =>
    rw [unlinkFile_cons]
    by_cases he : e.1 = d
    · simp [findDir, he]
    · simp only [findDir, if_neg he, ih]

theorem findDir_unlinkFile_other (d' d f : String) (hne : d' ≠ d) :
    ∀ fs : CacheFS, findDir (unlinkFile fs d f) d' = findDir fs d' := by
  intro fs
  induction fs with
  | nil => simp [findDir, unlinkFile]
  | cons e rest ih =>
    rw [unlinkFile_cons]
    by_cases he : e.1 = d
    · have hne' : ¬e.1 = d' := fun h => hne (by rw [← h, he])
      simp only [findDir, if_pos he, ih]
      rw [if_neg (fun h => hne (by rw [← h, he])), if_neg hne']
    · simp only [findDir, if_neg he, ih]

theorem cleanLoop_count (locked : List String) (d : String) :
    ∀ (files : List String) (fs : CacheFS),
      (cleanLoop locked d fs files).2 =
        (files.filter (fun f => !(memS locked f))).length := by
  intro files
  induction files with
  | nil => intro fs; simp [cleanLoop]
  | cons f rest ih =>
    intro fs
    by_cases hl : memS locked f = true
    · simp [cleanLoop, hl, ih]
    · have hl' : memS locked f = false := Bool.not_eq_true _ ▸ hl
      simp [cleanLoop, hl', ih]

theorem cleanLoop_findDir_other (locked : List String) (d d' : String) (hne : d' ≠ d) :
    ∀ (files : List String) (fs : CacheFS),
      findDir (cleanLoop locked d fs files).1 d' = findDir fs d' := by
  intro files
  induction files with
  | nil => intro fs; simp [cleanLoop]
  | cons f rest ih =>
    intro fs
    by_cases hl : memS locked f = true
    · rw [cleanLoop, if_pos hl, ih fs]
    · rw [cleanLoop, if_neg hl]
      show findDir (cleanLoop locked d (unlinkFile fs d f) rest).1 d' = _
      rw [ih (unlinkFile fs d f), findDir_unlinkFile_other d' d f hne]

theorem cleanLoop_findDir_same (locked : List String) (d : String) :
    ∀ (files : List String) (fs : CacheFS),
      findDir (cleanLoop locked d fs files).1 d =
        (findDir fs d).map (fun md =>
          { md with blobFiles :=
              md.blobFiles.filter (fun g => !(memS files g && !(memS locked g))) }) := by
  intro files
  induction files with
  | nil =>
    intro fs
    rcases hfd : findDir fs d with _ | md
    · simp [cleanLoop, hfd]
    · simp only [cleanLoop, hfd, Option.map]
      have : md.blobFiles.filter (fun g => !(memS ([] : List String) g && !(memS locked g))) =
          md.blobFiles := by
        apply List.filter_eq_self.mpr
        intro g _
        simp [memS]
      rw [this]
  | cons f rest ih =>
    intro fs
    by_cases hl : memS locked f = true
    · rw [cleanLoop, if_pos hl, ih fs]
      rcases hfd : findDir fs d with _ | md
      · simp
      · simp only [Option.map]
        have hcong : md.blobFiles.filter (fun g => !(memS rest g && !(memS locked g))) =
            md.blobFiles.filter (fun g => !(memS (f :: rest) g && !(memS locked g))) := by
          apply List.filter_congr
          intro g _
          by_cases hgf : g = f
          · subst hgf
            simp [memS, hl]
          · have hfg : ¬f = g := fun h => hgf h.symm
            rw [show memS (f :: rest) g = memS rest g by simp [memS, hfg]]
        rw [hcong]
    · rw [cleanLoop, if_neg hl]
      have hl' : memS locked f = false := Bool.not_eq_true _ ▸ hl
      show findDir (cleanLoop locked d (unlinkFile fs d f) rest).1 d = _
      rw [ih (unlinkFile fs d f), findDir_unlinkFile_same]
      rcases hfd : findDir fs d with _ | md
      · simp
      · simp only [Option.map]
        have hstep : (eraseFile md f).blobFiles.filter
            (fun g => !(memS rest g && !(memS locked g))) =
            md.blobFiles.filter (fun g => !(memS (f :: rest) g && !(memS locked g))) := by
          unfold eraseFile
          simp only [List.filter_filter]
          apply List.filter_congr
          intro g _
          by_cases hgf : g = f
          · subst hgf
            simp [memS, hl']
          · have hfg : ¬f = g := fun h => hgf h.symm
            have h1 : memS (f :: rest) g = memS rest g := by simp [memS, hfg]
            have h2 : (g == f) = false := by simp [hgf]
            rw [h1, h2]
            simp
        simp only [eraseFile] at hstep ⊢
        rw [hstep]

/-- Unpacking an `incomplete` classification: the directory and its
`blobs/` exist, some blob carries the marker, and the returned file list
is exactly the marker files. -/
theorem status_incomplete_elim (fs : CacheFS) (name : String)
    (h : (get_model_status fs name).1 = "incomplete") :
    ∃ md, findDir fs (encodeDir name) = some md ∧ md.blobsExists = true ∧
      md.blobFiles.filter isIncompleteName ≠ [] ∧
      (get_model_status fs name).2.2 = md.blobFiles.filter isIncompleteName := by
  rcases hfd : findDir fs (encodeDir name) with _ | md
  · rw [show (get_model_status fs name).1 = "not_downloaded" by
      simp [get_model_status, hfd]] at h
    exact absurd h (by decide)
  · by_cases hb : md.blobsExists = false
    · rw [show (get_model_status fs name).1 = "no_blobs" by
        simp [get_model_status, hfd, hb]] at h
      exact absurd h (by decide)
    · simp only [Bool.not_eq_false] at hb
      by_cases hf : md.blobFiles.filter isIncompleteName = []
      · by_cases hs : md.snapshotsExists = true ∧ md.snapshotFiles ≠ []
        · rw [show (get_model_status fs name).1 = "complete" by
            simp [get_model_status, hfd, hb, hf, hs]] at h
          exact absurd h (by decide)
        · rw [show (get_model_status fs name).1 = "unknown" by
            simp [get_model_status, hfd, hb, hf, hs]] at h
          exact absurd h (by decide)
      · exact ⟨md, rfl, hb, hf, by simp [get_model_status, hfd, hb, hf]⟩

/-- Claim C2 counterexample: on a cache whose model has two marker files,
both deletable, `clean_incomplete_model` removes 2 files but returns the
constant `True` (Python's `True` is the integer 1), not the count 2 the
claim requires. -/
theorem C2_counterexample :
    (clean_incomplete_model fsTwoInc [] "acme/Foo-7B").1 = true ∧
    (clean_incomplete_model fsTwoInc [] "acme/Foo-7B").2.2 = 2 ∧
    ((clean_incomplete_model fsTwoInc [] "acme/Foo-7B").1).toNat ≠
      (clean_incomplete_model fsTwoInc [] "acme/Foo-7B").2.2 := by
  refine ⟨by decide, by decide, by decide⟩

/-- Claim C2 as amended: when the status is not `incomplete` the call
returns `False` (Python `0`) and the state is untouched; when it is
`incomplete` the call returns the constant `True` (not the removal
count), every deletable marker file is removed even when other deletions
fail (continue-on-error), no other file or directory is touched, and the
number of files actually removed is the number of unlocked marker
files. -/
theorem C2_clean_behaviour (fs : CacheFS) (locked : List String) (name : String) :
    ((get_model_status fs name).1 ≠ "incomplete" →
      clean_incomplete_model fs locked name = (false, fs, 0)) ∧
    ((get_model_status fs name).1 = "incomplete" →
      (clean_incomplete_model fs locked name).1 = true ∧
      (∀ md, findDir fs (encodeDir name) = some md →
        (clean_incomplete_model fs locked name).2.2 =
          ((md.blobFiles.filter isIncompleteName).filter
            (fun f => !(memS locked f))).length ∧
        findDir (clean_incomplete_model fs locked name).2.1 (encodeDir name) =
          some { md with blobFiles :=
            md.blobFiles.filter (fun g => !(isIncompleteName g && !(memS locked g))) }) ∧
      (∀ d, d ≠ encodeDir name →
        findDir (clean_incomplete_model fs locked name).2.1 d = findDir fs d)) := by
  constructor
  · intro h
    simp [clean_incomplete_model, h]
  · intro h
    have hcl : clean_incomplete_model fs locked name =
        (true, (cleanLoop locked (encodeDir name) fs (get_model_status fs name).2.2).1,
          (cleanLoop locked (encodeDir name) fs (get_model_status fs name).2.2).2) := by
      simp [clean_incomplete_model, h]
    rcases status_incomplete_elim fs name h with ⟨md0, hfd0, _, _, hfl0⟩
    refine ⟨by rw [hcl], ?_, ?_⟩
    · intro md hfd
      have hmd : md = md0 := by
        rw [hfd0] at hfd
        exact (Option.some.injEq _ _ ▸ hfd).symm
      subst hmd
      constructor
      · rw [hcl]
        show (cleanLoop locked (encodeDir name) fs (get_model_status fs name).2.2).2 = _
        rw [hfl0, cleanLoop_count]
      · rw [hcl]
        show findDir (cleanLoop locked (encodeDir name) fs
          (get_model_status fs name).2.2).1 (encodeDir name) = _
        rw [hfl0, cleanLoop_findDir_same, hfd0]
        simp only [Option.map]
        have hcong : md.blobFiles.filter
            (fun g => !(memS (md.blobFiles.filter isIncompleteName) g && !(memS locked g))) =
            md.blobFiles.filter (fun g => !(isIncompleteName g && !(memS locked g))) := by
          apply List.filter_congr
          intro g hg
          have hmem : memS (md.blobFiles.filter isIncompleteName) g = isIncompleteName g := by
            by_cases hic : isIncompleteName g = true
            · rw [hic]
              exact (memS_iff _ _).mpr (List.mem_filter.mpr ⟨hg, hic⟩)
            · have hic' : isIncompleteName g = false := Bool.not_eq_true _ ▸ hic
              rw [hic']
              cases hm : memS (md.blobFiles.filter isIncompleteName) g
              · rfl
              · rcases List.mem_filter.mp ((memS_iff _ _).mp hm) with ⟨_, hgt⟩
                rw [hic'] at hgt
                cases hgt
          rw [hmem]
        rw [hcong]
    · intro d hd
      rw [hcl]
      show findDir (cleanLoop locked (encodeDir name) fs
        (get_model_status fs name).2.2).1 d = _
      rw [cleanLoop_findDir_other locked (encodeDir name) d hd]

/-- Claim C2 witness: with one of the two marker files undeletable, the
call still reports `True`, having removed the other file. -/
theorem C2_clean_behaviour_witness :
    (clean_incomplete_model fsTwoInc ["a.incomplete"] "acme/Foo-7B").1 = true :=
  ((C2_clean_behaviour fsTwoInc ["a.incomplete"] "acme/Foo-7B").2 (by decide)).1

/-! Effect of `rmtree` on the cache state. -/

theorem findDir_removeDir_same (d : String) :
    ∀ fs : CacheFS, findDir (removeDir fs d) d = none := by
  intro fs
  induction fs with
  | nil => simp [removeDir, findDir]
  | cons e rest ih =>
    by_cases he : e.1 = d
    · simp only [removeDir, List.filter] at ih ⊢
      rw [show ((!(e.1 == d)) = false) by simp [he]]
      exact ih
    · simp only [removeDir, List.filter] at ih ⊢
      rw [show ((!(e.1 == d)) = true) by simp [he]]
      rw [findDir, if_neg he]
      exact ih

theorem findDir_removeDir_other (d d' : String) (hne : d' ≠ d) :
    ∀ fs : CacheFS, findDir (removeDir fs d) d' = findDir fs d' := by
  intro fs
  induction fs with
  | nil => simp [removeDir, findDir]
  | cons e rest ih =>
    by_cases he : e.1 = d
    · have hne' : ¬e.1 = d' := fun h => hne (by rw [← h, he])
      simp only [removeDir, List.filter] at ih ⊢
      rw [show ((!(e.1 == d)) = false) by simp [he]]
      rw [ih, findDir, if_neg hne']
    · simp only [removeDir, List.filter] at ih ⊢
      rw [show ((!(e.1 == d)) = true) by simp [he]]
      by_cases he' : e.1 = d'
      · simp [findDir, he']
      · rw [findDir, if_neg he', findDir, if_neg he']
        exact ih

/-- Claim C8: `remove_model` re-inspects; on `not_downloaded` it returns
`False` and leaves the filesystem exactly as it was (nothing created or
removed); on any other status it deletes the whole model directory and
returns `True`, or returns `False` (state unchanged in the model) when
the deletion raises. -/
theorem C8_remove_behaviour (fs : CacheFS) (rmOk : Bool) (name : String) :
    ((get_model_status fs name).1 = "not_downloaded" →
      remove_model fs rmOk name = (false, fs)) ∧
    ((get_model_status fs name).1 ≠ "not_downloaded" → rmOk = true →
      (remove_model fs rmOk name).1 = true ∧
      findDir (remove_model fs rmOk name).2 (encodeDir name) = none ∧
      (∀ d, d ≠ encodeDir name →
        findDir (remove_model fs rmOk name).2 d = findDir fs d)) ∧
    ((get_model_status fs name).1 ≠ "not_downloaded" → rmOk = false →
      remove_model fs rmOk name = (false, fs)) := by
  refine ⟨?_, ?_, ?_⟩
  · intro h
    simp [remove_model, h]
  · intro h hok
    have hrm : remove_model fs rmOk name = (true, removeDir fs (encodeDir name)) := by
      simp [remove_model, h, hok]
    rw [hrm]
    exact ⟨rfl, findDir_removeDir_same _ fs,
      fun d hd => findDir_removeDir_other _ d hd fs⟩
  · intro h hok
    simp [remove_model, h, hok]

/-- Claim C8 witness: removing a model absent from an empty cache returns
`False` and changes nothing. -/
theorem C8_remove_behaviour_witness :
    remove_model [] true "acme/Foo-7B" = (false, []) :=
  (C8_remove_behaviour [] true "acme/Foo-7B").1 (by decide)

/-- Claim C4: decoding fails unless the directory name starts with
`models--` and the prefix-stripped remainder splits on `--` into at least
2 parts; on success the identifier is `parts[0] ++ "/" ++` the remaining
parts joined with a single dash, so `models--org--a--b` decodes to
`org/a-b` and not to `org/a--b`. -/
theorem C4_decode_rules (d : String) :
    (startsWithModels d = false → decodeDir d = none) ∧
    ((splitDD (d.data.drop 8)).length < 2 → decodeDir d = none) ∧
    (∀ p0 p1 rest, startsWithModels d = true →
      splitDD (d.data.drop 8) = p0 :: p1 :: rest →
      decodeDir d = some ⟨p0 ++ '/' :: joinDash (p1 :: rest)⟩) ∧
    decodeDir "models--org--a--b" = some "org/a-b" ∧
    ("org/a-b" : String) ≠ "org/a--b" := by
  refine ⟨?_, ?_, ?_, by decide, by decide⟩
  · intro h
    simp [decodeDir, h]
  · intro hlen
    unfold decodeDir
    by_cases hs : startsWithModels d = true
    · rw [if_pos hs]
      rcases hsp : splitDD (d.data.drop 8) with _ | ⟨p0, _ | ⟨p1, rest⟩⟩
      · rfl
      · rfl
      · rw [hsp] at hlen
        simp [List.length_cons] at hlen
        omega
    · rw [if_neg hs]
  · intro p0 p1 rest hs hsp
    simp [decodeDir, hs, hsp]

/-- Claim C4 witness: `models--x` splits into a single part and is
rejected. -/
theorem C4_decode_rules_witness : decodeDir "models--x" = none :=
  (C4_decode_rules "models--x").2.1 (by decide)

/-! Round-trip lemmas for the name codec. -/

theorem replaceSlashL_keep (l : List Char) (h : ∀ c ∈ l, c ≠ '/') :
    replaceSlashL l = l := by
  induction l with
  | nil => rfl
  | cons c cs ih =>
    have hc : ¬c = '/' := h c (List.mem_cons_self c cs)
    rw [replaceSlashL, if_neg hc, ih (fun x hx => h x (List.mem_cons_of_mem c hx))]

theorem replaceSlashL_append (a b : List Char) :
    replaceSlashL (a ++ b) = replaceSlashL a ++ replaceSlashL b := by
  induction a with
  | nil => rfl
  | cons c cs ih =>
    by_cases hc : c = '/'
    · simp [replaceSlashL, hc, ih]
    · simp [replaceSlashL, hc, ih]

theorem isPre_append (a t : List Char) : isPre a (a ++ t) = true :=
  (isPre_iff a (a ++ t)).mpr ⟨t, rfl⟩

theorem consHead_ne_nil (c : Char) (ps : List (List Char)) : consHead c ps ≠ [] := by
  cases ps <;> simp [consHead]

theorem splitDD_ne_nil (l : List Char) : splitDD l ≠ [] := by
  cases l with
  | nil => simp [splitDD]
  | cons c1 t =>
    cases t with
    | nil => simp [splitDD]
    | cons c2 cs =>
      unfold splitDD
      by_cases hc : c1 = '-' ∧ c2 = '-'
      · rw [if_pos hc]; simp
      · rw [if_neg hc]; exact consHead_ne_nil c1 _


/-- Splitting `og ++ "--" ++ nm` when `og` contains no `--` occurrence
(its own split is `[og]`) and does not end with `-`: the separator
written by the encoder is the leftmost occurrence, so the first part is
exactly `og`. -/
theorem splitDD_sep (nm : List Char) :
    ∀ og : List Char, splitDD og = [og] → og.getLast? ≠ some '-' →
      splitDD (og ++ '-' :: '-' :: nm) = og :: splitDD nm := by
  intro og
  induction og with
  | nil =>
    intro _ _
    simp [splitDD]
  | cons c rest ih =>
    intro h hlast
    cases rest with
    | nil =>
      have hc : ¬c = '-' := by
        intro hc
        exact hlast (by simp [hc])
      show splitDD (c :: '-' :: '-' :: nm) = [c] :: splitDD nm
      rw [splitDD, if_neg (fun hand => hc hand.1)]
      rw [show splitDD ('-' :: '-' :: nm) = [] :: splitDD nm by simp [splitDD]]
      rfl
    | cons c2 cs =>
      have hcond : ¬(c = '-' ∧ c2 = '-') := by
        intro hand
        rw [splitDD, if_pos hand] at h
        injection h with h1 h2
        exact List.noConfusion h1
      have hrest : splitDD (c2 :: cs) = [c2 :: cs] := by
        rw [splitDD, if_neg hcond] at h
        rcases hsp : splitDD (c2 :: cs) with _ | ⟨p, ps⟩
        · exact absurd hsp (splitDD_ne_nil _)
        · rw [hsp] at h
          simp only [consHead] at h
          injection h with h1 h2
          injection h1 with h3 h4
          rw [h4, h2]
      have hlast' : (c2 :: cs).getLast? ≠ some '-' := by
        rw [List.getLast?_cons_cons] at hlast
        exact hlast
      show splitDD (c :: c2 :: (cs ++ '-' :: '-' :: nm)) = (c :: c2 :: cs) :: splitDD nm
      rw [splitDD, if_neg hcond]
      rw [show splitDD (c2 :: (cs ++ '-' :: '-' :: nm)) = (c2 :: cs) :: splitDD nm from
        ih hrest hlast']
      rfl

/-- Claim C3 counterexample: for the identifier with organization `a-`
and name `b` the name component contains no `--`, yet decoding the
encoded directory name `models--a---b` yields organization `a` with name
`-b`, not the original identifier (the organization ends with a dash, so
the encoded form splits at the wrong place). -/
theorem C3_counterexample :
    splitDD "b".data = ["b".data] ∧
    decodeDir (encodeDir "a-/b") = some "a/-b" ∧
    decodeDir (encodeDir "a-/b") ≠ some "a-/b" := by
  refine ⟨by decide, by decide, by decide⟩

/-- Claim C3 as amended: decode(encode(id)) = id for identifiers
`org ++ "/" ++ name` in which neither component contains `/`, neither
component contains a `--` occurrence (its Python split on `--` is the
singleton), and the organization does not end with `-`. -/
theorem C3_roundtrip_amended (org nm : String)
    (h1 : ∀ c ∈ org.data, c ≠ '/') (h2 : ∀ c ∈ nm.data, c ≠ '/')
    (h3 : splitDD org.data = [org.data]) (h4 : splitDD nm.data = [nm.data])
    (h5 : org.data.getLast? ≠ some '-') :
    decodeDir (encodeDir (org ++ "/" ++ nm)) = some (org ++ "/" ++ nm) := by
  have happ : ∀ s t : String, (s ++ t).data = s.data ++ t.data := fun s t => rfl
  have hdata : (org ++ "/" ++ nm).data = org.data ++ '/' :: nm.data := by
    rw [happ, happ, List.append_assoc]
    rfl
  have hX : replaceSlashL (org ++ "/" ++ nm).data =
      org.data ++ '-' :: '-' :: nm.data := by
    rw [hdata]
    rw [show org.data ++ '/' :: nm.data = org.data ++ ('/' :: nm.data) from rfl]
    rw [replaceSlashL_append, replaceSlashL_keep org.data h1]
    congr 1
    rw [replaceSlashL, if_pos rfl, replaceSlashL_keep nm.data h2]
  have henc : encodeDir (org ++ "/" ++ nm) =
      ⟨"models--".data ++ (org.data ++ '-' :: '-' :: nm.data)⟩ :=
    congrArg (fun l => (⟨"models--".data ++ l⟩ : String)) hX
  rw [henc]
  have hsw : startsWithModels
      (⟨"models--".data ++ (org.data ++ '-' :: '-' :: nm.data)⟩ : String) = true :=
    isPre_append "models--".data _
  unfold decodeDir
  rw [if_pos hsw]
  have hdrop : ((⟨"models--".data ++ (org.data ++ '-' :: '-' :: nm.data)⟩ :
      String)).data.drop 8 = org.data ++ '-' :: '-' :: nm.data :=
    List.drop_left' (by decide)
  have hsplit : splitDD (((⟨"models--".data ++ (org.data ++ '-' :: '-' :: nm.data)⟩ :
      String)).data.drop 8) = org.data :: [nm.data] := by
    rw [hdrop, splitDD_sep nm.data org.data h3 h5, h4]
  rw [hsplit]
  show some (⟨org.data ++ '/' :: joinDash [nm.data]⟩ : String) = some (org ++ "/" ++ nm)
  rw [show joinDash [nm.data] = nm.data from rfl]
  have hfin : (⟨org.data ++ '/' :: nm.data⟩ : String) = org ++ "/" ++ nm := by
    rw [← hdata]
  rw [hfin]

/-- Claim C3 witness: the round trip holds for `acme/Foo-7B`. -/
theorem C3_roundtrip_amended_witness :
    decodeDir (encodeDir ("acme" ++ "/" ++ "Foo-7B")) =
      some ("acme" ++ "/" ++ "Foo-7B") :=
  C3_roundtrip_amended "acme" "Foo-7B" (by decide) (by decide) (by decide)
    (by decide) (by decide)

/-- The discovery loop keeps exactly the entries matching the
`models--*`-and-directory filter whose names decode. -/
theorem discoverLoop_eq (fs : CacheFS) :
    discoverLoop fs =
      (fs.filter (fun e => startsWithModels e.1 && e.2.isDir)).filterMap
        (fun e => decodeDir e.1) := by
  induction fs with
  | nil => rfl
  | cons e rest ih =>
    by_cases hc : startsWithModels e.1 = true ∧ e.2.isDir = true
    · have hcb : (startsWithModels e.1 && e.2.isDir) = true := by
        rw [hc.1, hc.2]
        rfl
      rcases hd : decodeDir e.1 with _ | m
      · simp [discoverLoop, hc, hcb, hd, List.filter_cons, ih]
      · simp [discoverLoop, hc, hcb, hd, List.filter_cons, ih]
    · have hcb : (startsWithModels e.1 && e.2.isDir) = false := by
        cases h1 : startsWithModels e.1 <;> cases h2 : e.2.isDir <;> simp_all
      simp [discoverLoop, hc, hcb, List.filter_cons, ih]

/-- Claim C5 counterexample: over a root holding the well-formed
`models--acme--Foo-7B` and the malformed `models--bad` (whose name fails
to decode), discovery returns exactly the one decoded identifier but its
entire observable behaviour — return value and printed lines — is
identical to the run without the malformed entry: the entry is silently
dropped, not reported as a per-entry error. -/
theorem C5_counterexample :
    decodeDir "models--bad" = none ∧
    discover_local_models fsDiscX = ["acme/Foo-7B"] ∧
    discover_local_models fsDiscX = discover_local_models fsDiscY ∧
    discover_report fsDiscX = [] := by
  refine ⟨by decide, ?_, ?_, rfl⟩
  · show List.insertionSort (· ≤ ·) (discoverLoop fsDiscX) = ["acme/Foo-7B"]
    rw [show discoverLoop fsDiscX = ["acme/Foo-7B"] by decide]
    rfl
  · show List.insertionSort (· ≤ ·) (discoverLoop fsDiscX) =
      List.insertionSort (· ≤ ·) (discoverLoop fsDiscY)
    rw [show discoverLoop fsDiscX = ["acme/Foo-7B"] by decide,
      show discoverLoop fsDiscY = ["acme/Foo-7B"] by decide]

/-- Claim C5 as amended: discovery returns exactly the identifiers decoded
from `models--*` directory entries, sorted lexicographically by the
identifier string; an entry that fails to decode does not abort the scan
(all other entries are still returned) but is skipped silently — the
function emits no per-entry error report. -/
theorem C5_discover_behaviour (fs : CacheFS) :
    List.Sorted (· ≤ ·) (discover_local_models fs) ∧
    (discover_local_models fs).Perm
      ((fs.filter (fun e => startsWithModels e.1 && e.2.isDir)).filterMap
        (fun e => decodeDir e.1)) ∧
    discover_report fs = [] := by
  refine ⟨List.sorted_insertionSort _ _, ?_, rfl⟩
  rw [← discoverLoop_eq fs]
  exact List.perm_insertionSort _ _


/-! Case evaluations of the post-fast-path download flow. -/

theorem downloadRest_inc_err (fs : CacheFS) (env : Env) (name : String)
    (verify : Bool) (evs : List Ev) (li : Nat)
    (h : (get_model_status fs name).1 = "incomplete")
    (hf : env.fetch (clean_incomplete_model fs env.locked name).2.1 = none) :
    downloadRest fs env name verify evs li =
      (false, (clean_incomplete_model fs env.locked name).2.1,
        (evs ++ [Ev.clean]) ++ [Ev.fetch]) := by
  simp [downloadRest, h, hf]

theorem downloadRest_inc_ok (fs fs2 : CacheFS) (env : Env) (name : String)
    (verify : Bool) (evs : List Ev) (li : Nat)
    (h : (get_model_status fs name).1 = "incomplete")
    (hf : env.fetch (clean_incomplete_model fs env.locked name).2.1 = some fs2) :
    downloadRest fs env name verify evs li =
      if verify = true then (env.load li, fs2, (evs ++ [Ev.clean]) ++ [Ev.fetch, Ev.load])
      else (true, fs2, (evs ++ [Ev.clean]) ++ [Ev.fetch]) := by
  simp only [downloadRest, h, ite_true, if_pos, hf]

theorem downloadRest_other_err (fs : CacheFS) (env : Env) (name : String)
    (verify : Bool) (evs : List Ev) (li : Nat)
    (h : (get_model_status fs name).1 ≠ "incomplete")
    (hf : env.fetch fs = none) :
    downloadRest fs env name verify evs li = (false, fs, evs ++ [Ev.fetch]) := by
  simp [downloadRest, h, hf]

theorem downloadRest_other_ok (fs fs2 : CacheFS) (env : Env) (name : String)
    (verify : Bool) (evs : List Ev) (li : Nat)
    (h : (get_model_status fs name).1 ≠ "incomplete")
    (hf : env.fetch fs = some fs2) :
    downloadRest fs env name verify evs li =
      if verify = true then (env.load li, fs2, evs ++ [Ev.fetch, Ev.load])
      else (true, fs2, evs ++ [Ev.fetch]) := by
  simp only [downloadRest, h, ite_false, if_neg, hf]

/-- Claim C6: with status `complete` and `force` false, `download_model`
with `verify` false returns `True` at once, invoking neither the fetcher
nor the loader (empty call trace); with `verify` true it invokes the
loader and returns `True` on load success, while on load failure it
proceeds to invoke the fetcher (re-download) instead of failing
immediately. -/
theorem C6_complete_fastpath (fs : CacheFS) (env : Env) (name : String)
    (h : (get_model_status fs name).1 = "complete") :
    download_model fs env name false false = (true, fs, []) ∧
    (env.load 0 = true → download_model fs env name true false = (true, fs, [Ev.load])) ∧
    (env.load 0 = false → Ev.fetch ∈ (download_model fs env name true false).2.2) := by
  have hni : (get_model_status fs name).1 ≠ "incomplete" := by
    rw [h]; decide
  refine ⟨?_, ?_, ?_⟩
  · simp [download_model, h]
  · intro hl
    simp [download_model, h, hl]
  · intro hl
    have hdl : download_model fs env name true false =
        downloadRest fs env name true [Ev.load] 1 := by
      simp [download_model, h, hl]
    rw [hdl]
    rcases hf : env.fetch fs with _ | fs2
    · rw [downloadRest_other_err fs env name true [Ev.load] 1 hni hf]
      simp
    · rw [downloadRest_other_ok fs fs2 env name true [Ev.load] 1 hni hf]
      simp

/-- Claim C6 witness: on a complete cache with no verification the call
succeeds with no external calls. -/
theorem C6_complete_fastpath_witness :
    download_model fsComplete envYes "acme/Foo-7B" false false = (true, fsComplete, []) :=
  (C6_complete_fastpath fsComplete envYes "acme/Foo-7B" (by decide)).1

/-- Claim C7: when the inspected status is `incomplete`, `download_model`
invokes the cleaner and then, immediately next, the fetcher; if every
fetch raises a transfer error then any run that reaches the fetcher
returns `False`; and with `verify` true, if every load fails the run
returns `False` (a loader failure after the fresh download is a hard
failure, never swallowed). -/
theorem C7_failure_paths (fs : CacheFS) (env : Env) (name : String)
    (verify force : Bool) :
    ((get_model_status fs name).1 = "incomplete" →
      ∃ rest, (download_model fs env name verify force).2.2 =
        Ev.clean :: Ev.fetch :: rest) ∧
    ((∀ s, env.fetch s = none) →
      Ev.fetch ∈ (download_model fs env name verify force).2.2 →
      (download_model fs env name verify force).1 = false) ∧
    (verify = true → (∀ i, env.load i = false) →
      (download_model fs env name verify force).1 = false) := by
  refine ⟨?_, ?_, ?_⟩
  · intro h
    have hnc : ¬((get_model_status fs name).1 = "complete" ∧ force = false) := by
      intro hand
      rw [h] at hand
      exact absurd hand.1 (by decide)
    have hdl : download_model fs env name verify force =
        downloadRest fs env name verify [] 0 := by
      unfold download_model
      rw [if_neg hnc]
    rw [hdl]
    rcases hf : env.fetch (clean_incomplete_model fs env.locked name).2.1 with _ | fs2
    · rw [downloadRest_inc_err fs env name verify [] 0 h hf]
      exact ⟨[], rfl⟩
    · rw [downloadRest_inc_ok fs fs2 env name verify [] 0 h hf]
      cases verify
      · exact ⟨[], rfl⟩
      · exact ⟨[Ev.load], rfl⟩
  · intro hfe
    have hrest : ∀ evs li, downloadRest fs env name verify evs li =
        (false, (if (get_model_status fs name).1 = "incomplete" then
          (clean_incomplete_model fs env.locked name).2.1 else fs),
          (if (get_model_status fs name).1 = "incomplete" then
            evs ++ [Ev.clean] else evs) ++ [Ev.fetch]) := by
      intro evs li
      by_cases hinc : (get_model_status fs name).1 = "incomplete"
      · rw [downloadRest_inc_err fs env name verify evs li hinc (hfe _), if_pos hinc,
          if_pos hinc]
      · rw [downloadRest_other_err fs env name verify evs li hinc (hfe _), if_neg hinc,
          if_neg hinc]
    intro hmem
    by_cases hc : (get_model_status fs name).1 = "complete" ∧ force = false
    · cases verify with
      | false =>
        have hdl : download_model fs env name false force = (true, fs, []) := by
          unfold download_model
          rw [if_pos hc]
          simp
        rw [hdl] at hmem
        simp at hmem
      | true =>
        by_cases hl : env.load 0 = true
        · have hdl : download_model fs env name true force = (true, fs, [Ev.load]) := by
            unfold download_model
            rw [if_pos hc]
            simp [hl]
          rw [hdl] at hmem
          simp at hmem
        · have hdl : download_model fs env name true force =
              downloadRest fs env name true [Ev.load] 1 := by
            unfold download_model
            rw [if_pos hc]
            simp [hl]
          rw [hdl, hrest [Ev.load] 1]
    · have hdl : download_model fs env name verify force =
          downloadRest fs env name verify [] 0 := by
        unfold download_model
        rw [if_neg hc]
      rw [hdl, hrest [] 0]
  · intro hv hl
    subst hv
    have hrest : ∀ evs li, (downloadRest fs env name true evs li).1 = false := by
      intro evs li
      by_cases hinc : (get_model_status fs name).1 = "incomplete"
      · rcases hf : env.fetch (clean_incomplete_model fs env.locked name).2.1 with _ | fs2
        · rw [downloadRest_inc_err fs env name true evs li hinc hf]
        · rw [downloadRest_inc_ok fs fs2 env name true evs li hinc hf]
          simp [hl li]
      · rcases hf : env.fetch fs with _ | fs2
        · rw [downloadRest_other_err fs env name true evs li hinc hf]
        · rw [downloadRest_other_ok fs fs2 env name true evs li hinc hf]
          simp [hl li]
    unfold download_model
    by_cases hc : (get_model_status fs name).1 = "complete" ∧ force = false
    · rw [if_pos hc]
      simp only [ite_true]
      rw [if_neg (by rw [hl 0]; decide)]
      exact hrest [Ev.load] 1
    · rw [if_neg hc]
      exact hrest [] 0

/-- Claim C7 witness: on an incomplete cache with a failing fetcher the
call cleans, fetches, and reports failure. -/
theorem C7_failure_paths_witness :
    (download_model fsTwoInc envNoFetch "acme/Foo-7B" true false).1 = false :=
  (C7_failure_paths fsTwoInc envNoFetch "acme/Foo-7B" true false).2.1
    (fun _ => rfl) (by decide)
